import Mathlib

set_option maxHeartbeats 1000000
set_option maxRecDepth 4000

/-- A byte held by the buffer file (Go `byte`; the byte's numeric range plays no
role in the properties verified here). -/
abbrev Byte := Int

/-- Go constant `InitialBufferSize = 64 * 1024` from config.go. -/
def InitialBufferSize : Int := 65536

/-- State of buffer.go's `CircularBuffer`.  The `file` handle is modelled by the
file's contents `fileData`; the remaining fields mirror the Go struct.  All Go
`int64` fields are modelled as `Int` (no quantity in any verified scenario comes
near the 2^63 overflow boundary of `int64`, except inside `calculateBackoff`,
whose wrap-around is modelled explicitly below). -/
structure CircularBuffer where
  fileData : List Byte
  readPos : Int
  writePos : Int
  size : Int
  fileSize : Int
  maxSize : Int
deriving DecidableEq

/-- `NewBuffer` (buffer.go): the freshly opened backing file holds `existing`
(empty for a newly created file); an empty file is grown to `InitialBufferSize`
by zero-filling `Truncate`; cursors and `size` start at zero.  `maxSize` is
stored unchecked, exactly as in the source. -/
def NewBuffer (existing : List Byte) (maxSize : Int) : CircularBuffer :=
  if existing.length = 0 then
    { fileData := List.replicate 65536 0, readPos := 0, writePos := 0, size := 0,
      fileSize := InitialBufferSize, maxSize := maxSize }
  else
    { fileData := existing, readPos := 0, writePos := 0, size := 0,
      fileSize := (existing.length : Int), maxSize := maxSize }

/-- `os.File.WriteAt`: overwrite `data.length` bytes at offset `off`, extending
the file when the write reaches past its end (any gap is zero-filled, as the
operating system does). -/
def writeAt (file : List Byte) (off : Nat) (data : List Byte) : List Byte :=
  file.take off ++ List.replicate (off - file.length) 0 ++ data ++ file.drop (off + data.length)

/-- `os.File.Truncate`: shrink, or zero-extend, the file to `newSize` bytes. -/
def truncateFile (file : List Byte) (newSize : Int) : List Byte :=
  file.take newSize.toNat ++ List.replicate (newSize.toNat - file.length) 0

/-- The chunked write performed by `CircularBuffer.Write` (buffer.go lines
98-113): one `WriteAt` when the data fits before the end of the file, otherwise
a tail chunk at `writePos` followed by a head chunk at offset 0. -/
def writeChunks (file : List Byte) (writePos fileSize : Int) (data : List Byte) : List Byte :=
  if writePos + (data.length : Int) ≤ fileSize then
    writeAt file writePos.toNat data
  else
    let firstChunkSize := (fileSize - writePos).toNat
    writeAt (writeAt file writePos.toNat (data.take firstChunkSize)) 0 (data.drop firstChunkSize)

/-- The growth / eviction phase of `CircularBuffer.Write` (buffer.go lines
76-96), applied before any bytes are written: when `size + dataLen` exceeds the
file size, the candidate new size is the doubled file size capped at `maxSize`;
if even that cannot hold the backlog while `size < maxSize`, the read cursor is
moved to `(writePos + dataLen) % fileSize` and `size` becomes `fileSize`;
otherwise, when the candidate size suffices, the file is truncated (extended) to
it. -/
def growState (cb : CircularBuffer) (dataLen : Int) : CircularBuffer :=
  if cb.size + dataLen > cb.fileSize then
    let newSize := if cb.fileSize * 2 > cb.maxSize then cb.maxSize else cb.fileSize * 2
    if newSize < cb.size + dataLen ∧ cb.size < cb.maxSize then
      { cb with readPos := (cb.writePos + dataLen) % cb.fileSize, size := cb.fileSize }
    else if newSize ≥ cb.size + dataLen then
      { cb with fileData := truncateFile cb.fileData newSize, fileSize := newSize }
    else cb
  else cb

/-- The final phase of `CircularBuffer.Write` (buffer.go lines 98-124): write
the chunks, advance the write cursor modulo the file size, and bump `size`
(capped at `fileSize`) unless it already reached `fileSize`. -/
def writeCommit (cb : CircularBuffer) (data : List Byte) : CircularBuffer :=
  { cb with
    fileData := writeChunks cb.fileData cb.writePos cb.fileSize data,
    writePos := (cb.writePos + (data.length : Int)) % cb.fileSize,
    size := if cb.size < cb.fileSize then min (cb.size + (data.length : Int)) cb.fileSize else cb.size }

/-- Result of `CircularBuffer.Write`: Go returns `(0, error)` leaving the state
untouched, or `(len(data), nil)` with the updated state.  The carried state
makes "the buffer is left unchanged" statements direct.  File I/O itself is
assumed to succeed (`Truncate`/`WriteAt` errors are environment failures with no
bearing on the verified properties). -/
inductive WriteResult where
  | err (cb : CircularBuffer)
  | ok (cb : CircularBuffer) (n : Int)
deriving DecidableEq

/-- The buffer state carried by a `WriteResult`. -/
def WriteResult.state : WriteResult → CircularBuffer
  | .err cb => cb
  | .ok cb _ => cb

/-- Whether a `WriteResult` is the success case. -/
def WriteResult.isOk : WriteResult → Bool
  | .err _ => false
  | .ok _ _ => true

/-- `CircularBuffer.Write` (buffer.go lines 65-127): reject data larger than
`maxSize`, otherwise grow/evict as needed, then commit the chunked write. -/
def CircularBuffer.Write (cb : CircularBuffer) (data : List Byte) : WriteResult :=
  if (data.length : Int) > cb.maxSize then .err cb
  else .ok (writeCommit (growState cb (data.length : Int)) data) (data.length : Int)

/-- `os.File.ReadAt` for `n` bytes at offset `off`: `none` models the error Go
returns when fewer than `n` bytes are available before end-of-file. -/
def readAt (file : List Byte) (off n : Nat) : Option (List Byte) :=
  if off + n ≤ file.length then some ((file.drop off).take n) else none

/-- Result of `CircularBuffer.Read`: `eof` is the `io.EOF` returned for an empty
buffer, `negAlloc` is the Go runtime panic of `make([]byte, toRead)` with a
negative `toRead`, `ioError` is a failing `ReadAt`, and `ok` carries the bytes
together with the updated state. -/
inductive ReadResult where
  | eof
  | negAlloc
  | ioError
  | ok (data : List Byte) (cb : CircularBuffer)
deriving DecidableEq

/-- `CircularBuffer.Read` (buffer.go lines 130-168): EOF when empty, otherwise
read `min(size, maxBytes)` bytes starting at the read cursor, split in two
chunks across the wrap point, then advance the cursor modulo the file size and
decrement `size`. -/
def CircularBuffer.Read (cb : CircularBuffer) (maxBytes : Int) : ReadResult :=
  if cb.size = 0 then .eof
  else
    let toRead := if cb.size > maxBytes then maxBytes else cb.size
    if toRead < 0 then .negAlloc
    else
      let readData :=
        if cb.readPos + toRead ≤ cb.fileSize then
          readAt cb.fileData cb.readPos.toNat toRead.toNat
        else
          let firstChunkSize := cb.fileSize - cb.readPos
          match readAt cb.fileData cb.readPos.toNat firstChunkSize.toNat,
                readAt cb.fileData 0 (toRead - firstChunkSize).toNat with
          | some a, some b => some (a ++ b)
          | _, _ => none
      match readData with
      | none => .ioError
      | some d =>
          .ok d { cb with readPos := (cb.readPos + toRead) % cb.fileSize, size := cb.size - toRead }

/-- `CircularBuffer.HasData` (buffer.go). -/
def CircularBuffer.HasData (cb : CircularBuffer) : Bool := cb.size > 0

/-- `CircularBuffer.GetSize` (buffer.go). -/
def CircularBuffer.GetSize (cb : CircularBuffer) : Int := cb.size

/-- The states reachable through `NewBuffer`, successful `Write`s and successful
`Read`s (failing calls leave the Go state unchanged, so they add no states). -/
inductive Reachable (existing : List Byte) (maxSize : Int) : CircularBuffer → Prop where
  | new : Reachable existing maxSize (NewBuffer existing maxSize)
  | wstep {cb cb' : CircularBuffer} {data : List Byte} {n : Int} :
      Reachable existing maxSize cb → cb.Write data = .ok cb' n →
      Reachable existing maxSize cb'
  | rstep {cb cb' : CircularBuffer} {d : List Byte} {mb : Int} :
      Reachable existing maxSize cb → cb.Read mb = .ok d cb' →
      Reachable existing maxSize cb'

/-- Signed 64-bit wrap-around: the `Int` congruent to `x` modulo `2 ^ 64` lying
in `[-2 ^ 63, 2 ^ 63)`, the value a Go `int64` computation produces. -/
def wrap64 (x : Int) : Int := (x + 2 ^ 63) % 2 ^ 64 - 2 ^ 63

/-- `calculateBackoff` (client.go lines 106-124), in nanoseconds.  The random
draw is abstracted: the multiplicative factor `1 + (rand.Float64()*0.4 - 0.2)`,
a value in `[0.8, 1.2)`, is passed as the exact fraction `qnum / qden`
(`qden > 0`).  Go's `1 << uint(n-1)` on `int` and the `time.Duration`
multiplication both wrap modulo 2^64 as signed 64-bit values (a shift count of
64 or more yields 0), captured by `wrap64`; the float64 product is modelled as
the exact rational product, and the float-to-`Duration` conversion as
truncation toward zero (`Int.tdiv`). -/
def calculateBackoff (retryCount : Int) (qnum qden : Int) : Int :=
  if retryCount ≤ 0 then 100000000
  else
    let shifted := wrap64 (2 ^ (retryCount - 1).toNat)
    let backoff := wrap64 (shifted * 1000000000)
    let capped := if backoff > 30000000000 then 30000000000 else backoff
    (capped * qnum).tdiv qden

/-- An entry of the in-memory retry queue of `HTTPClient.SendLogs` (client.go
lines 153-157).  `lastAttempt` is nanoseconds since some epoch; `none` models
the zero `time.Time` ("never attempted"). -/
structure QueuedMessage where
  message : String
  retries : Nat
  lastAttempt : Option Int
deriving DecidableEq

/-- `extractMessage` (client.go lines 577-585): everything after the first
`" - - - "` separator, or the whole line when the separator is absent. -/
def extractMessage (line : String) : String :=
  match line.splitOn " - - - " with
  | [] => line
  | [_] => line
  | _ :: rest => String.intercalate " - - - " rest

/-- The per-entry backoff test of `SendLogs` (client.go lines 252-253 and
345-349): a non-zero `lastAttempt` less than `calculateBackoff(retries)` ago.
`q` is the jitter fraction (numerator, denominator) of that particular
`calculateBackoff` call. -/
def onBackoff (now : Int) (q : Int × Int) (m : QueuedMessage) : Bool :=
  match m.lastAttempt with
  | none => false
  | some t => decide (now - t < calculateBackoff (m.retries : Int) q.1 q.2)

/-- The batch-readiness scan of `SendLogs` (client.go lines 249-257): whether
any of the given messages is on backoff; `qs i` is the jitter fraction drawn
for the check of entry `i`. -/
def anyOnBackoff (now : Int) (qs : Nat → Int × Int) (msgs : List QueuedMessage) : Bool :=
  (List.range msgs.length).any fun i => onBackoff now (qs i) (msgs.getD i ⟨"", 0, none⟩)

/-- Observable outcome of one queue-processing iteration of `SendLogs`: the
queue afterwards, the entries put into a transmission attempt (`none` when no
request was attempted at all), and the increments of the permanent-failure and
success counters. -/
structure StepOut where
  queue : List QueuedMessage
  sent : Option (List QueuedMessage)
  failInc : Nat
  succInc : Nat
deriving DecidableEq

/-- Number of entries transmitted by a step. -/
def sentLength (o : StepOut) : Nat :=
  match o.sent with
  | none => 0
  | some l => l.length

/-- One queue-processing iteration of `HTTPClient.SendLogs` (client.go lines
239-425), for a non-empty queue.  Batched mode is entered only when batching is
enabled and the queue holds at least `batchSize` entries; there the whole
prospective batch is skipped if any member is on backoff, otherwise up to
`batchSize` entries are sent together: on success they are dropped from the
queue, on failure each gets `retries+1` and `lastAttempt := now`, entries past
`maxRetries` are counted failed and filtered out (the code clamps their retry
count to `maxRetries + 1` before the filter).  Single mode processes only the
head the same way.  `sendOk` abstracts the outcome of the HTTP request, and the
JSON marshalling of a `LogEntry` is modelled as always succeeding. -/
def deliveryStep (enableBatching : Bool) (batchSize maxRetries : Nat)
    (queue : List QueuedMessage) (now : Int) (qs : Nat → Int × Int) (sendOk : Bool) : StepOut :=
  match queue with
  | [] => ⟨[], none, 0, 0⟩
  | msg :: rest =>
    if enableBatching = true ∧ batchSize ≤ queue.length then
      let b := if batchSize > queue.length then queue.length else batchSize
      let batch := queue.take b
      if anyOnBackoff now qs batch then ⟨queue, none, 0, 0⟩
      else if sendOk then ⟨queue.drop b, some batch, 0, b⟩
      else
        let bumped := batch.map fun m =>
          if maxRetries < m.retries + 1 then
            { m with retries := maxRetries + 1, lastAttempt := some now }
          else
            { m with retries := m.retries + 1, lastAttempt := some now }
        ⟨(bumped ++ queue.drop b).filter fun m => m.retries ≤ maxRetries,
         some batch, batch.countP fun m => maxRetries < m.retries + 1, 0⟩
    else
      if onBackoff now (qs 0) msg then ⟨queue, none, 0, 0⟩
      else if sendOk then ⟨rest, some [msg], 0, 1⟩
      else if maxRetries < msg.retries + 1 then ⟨rest, some [msg], 1, 0⟩
      else ⟨{ msg with retries := msg.retries + 1, lastAttempt := some now } :: rest,
            some [msg], 0, 0⟩

/-- Length of a `writeAt`: the file keeps its length unless the write reaches
past the end, in which case it grows exactly to the end of the write. -/
theorem length_writeAt (file data : List Byte) (off : Nat) :
    (writeAt file off data).length = max file.length (off + data.length) := by
  simp only [writeAt, List.length_append, List.length_take, List.length_replicate,
    List.length_drop]
  omega

/-- Length of a `truncateFile`: exactly the requested size. -/
theorem length_truncateFile (file : List Byte) (newSize : Int) :
    (truncateFile file newSize).length = newSize.toNat := by
  simp only [truncateFile, List.length_append, List.length_take, List.length_replicate]
  omega

/-- A chunked ring write keeps the file length whenever the write cursor is in
range and the data is no longer than the file. -/
theorem length_writeChunks (file data : List Byte) (wp fs : Int)
    (hlen : (file.length : Int) = fs) (h0 : 0 ≤ wp) (hwp : wp ≤ fs)
    (hdl : (data.length : Int) ≤ fs) :
    ((writeChunks file wp fs data).length : Int) = fs := by
  unfold writeChunks
  split
  · rw [length_writeAt]; omega
  · rw [length_writeAt, length_writeAt, List.length_drop, List.length_take]; omega

/-- C5: a `Write` whose data is longer than `maxSize` returns an error and
leaves every component of the buffer state — `size`, the read cursor, the
write cursor and the capacity — exactly as before the call. -/
theorem write_too_large_rejected (cb : CircularBuffer) (data : List Byte)
    (h : (data.length : Int) > cb.maxSize) :
    cb.Write data = .err cb ∧
    (cb.Write data).state.size = cb.size ∧
    (cb.Write data).state.readPos = cb.readPos ∧
    (cb.Write data).state.writePos = cb.writePos ∧
    (cb.Write data).state.fileSize = cb.fileSize := by
  unfold CircularBuffer.Write
  rw [if_pos h]
  exact ⟨rfl, rfl, rfl, rfl, rfl⟩

/-- Witness for C5 at a concrete input: a 3-byte write into a buffer whose
ceiling is 2 bytes. -/
theorem write_too_large_rejected_witness :
    (CircularBuffer.mk [0, 0, 0, 0] 0 0 0 4 2).Write [1, 1, 1] =
      .err (CircularBuffer.mk [0, 0, 0, 0] 0 0 0 4 2) :=
  (write_too_large_rejected (CircularBuffer.mk [0, 0, 0, 0] 0 0 0 4 2) [1, 1, 1]
    (by decide)).1

/-- Counterexample to C1 as stated: an empty buffer freshly opened on a
16-byte file with `maxSize = 4` (reachable, since `NewBuffer` never checks
`maxSize` against the existing file's size).  The 8-byte sequence is shorter
than the capacity 16, yet `Write` rejects it (its length exceeds `maxSize`),
so the following `Read` reports end-of-data instead of returning the bytes. -/
theorem roundtrip_counterexample :
    (List.replicate 8 1).length < (NewBuffer (List.replicate 16 0) 4).fileSize.toNat ∧
    (NewBuffer (List.replicate 16 0) 4).size = 0 ∧
    (NewBuffer (List.replicate 16 0) 4).Write (List.replicate 8 1) =
      .err (NewBuffer (List.replicate 16 0) 4) ∧
    (NewBuffer (List.replicate 16 0) 4).Read ((List.replicate 8 1).length : Int) = .eof := by
  decide

/-- Counterexample to C2 as stated: a full buffer (`size = fileSize = maxSize
= 8`, cursors at 0) written with 4 more bytes.  `size + 4` exceeds the
capacity, the doubled capacity is capped at `maxSize`, and `size` has reached
`maxSize` — the claim then requires the read cursor to advance by the overflow
amount to `(0 + 4) % 8 = 4`, but the code skips the eviction branch entirely
(its guard demands `size < maxSize`): the write succeeds with the read cursor
still at 0. -/
theorem eviction_counterexample :
    ((CircularBuffer.mk (List.replicate 8 0) 0 0 8 8 8).Write (List.replicate 4 1)).isOk
      = true ∧
    ((CircularBuffer.mk (List.replicate 8 0) 0 0 8 8 8).Write (List.replicate 4 1)).state.readPos
      = 0 ∧
    ((0 : Int) + 4) % 8 ≠ (0 : Int) := by
  decide

/-- Counterexample to C3 as stated: an empty buffer on a 16-byte file with
`maxSize = 1000`, written with 100 bytes.  The data fits within `maxSize`
(100 ≤ 1000) and exceeds the capacity (100 > 16), so the claim requires the
capacity to grow; but one doubling (to 32) still cannot hold it, so the code
takes the eviction branch instead and the capacity stays 16. -/
theorem growth_counterexample :
    ((CircularBuffer.mk (List.replicate 16 0) 0 0 0 16 1000).Write
        (List.replicate 100 1)).isOk = true ∧
    ((CircularBuffer.mk (List.replicate 16 0) 0 0 0 16 1000).Write
        (List.replicate 100 1)).state.fileSize = 16 := by
  decide

/-- Counterexample to C4 as stated: at `retryCount = 35` the Go computation
`time.Duration(1 << 34) * time.Second` overflows `int64` to a negative
duration, which the 30-second cap (a `>` test) does not touch; the result is
negative even with jitter factor exactly 1, far outside the claimed range
`[0.8 * 30s, 1.2 * 30s]`. -/
theorem backoff_counterexample :
    calculateBackoff 35 1 1 = -1266874889709551616 ∧
    calculateBackoff 35 1 1 < 24000000000 := by
  decide

/-- Counterexample to C6 as stated: constructing a buffer over a fresh (empty)
file with `maxSize = 1000` yields capacity `InitialBufferSize = 65536`, which
already exceeds the configured ceiling at construction time. -/
theorem capacity_invariant_counterexample :
    Reachable [] 1000 (NewBuffer [] 1000) ∧
    (NewBuffer [] 1000).fileSize = 65536 ∧
    ¬ (NewBuffer [] 1000).fileSize ≤ (NewBuffer [] 1000).maxSize :=
  ⟨.new, by decide, by decide⟩

/-- Counterexample to C9 as stated: batching enabled with `batchSize = 3` and a
ready (no backoff) queue of 2 fresh entries.  The claim requires
`min(batchSize, len) = 2` entries in one batch, but the code enters batched
mode only when the queue holds at least `batchSize` entries, so this iteration
falls back to single-message mode and transmits exactly 1 entry. -/
theorem batch_min_counterexample :
    sentLength (deliveryStep true 3 3 [⟨"a", 0, none⟩, ⟨"b", 0, none⟩] 0
        (fun _ => (1, 1)) true) = 1 ∧
    min 3 ([(⟨"a", 0, none⟩ : QueuedMessage), ⟨"b", 0, none⟩].length) = 2 ∧
    (1 : Nat) ≠ 2 := by
  decide

/-- C2 amended: when `size + len(b)` exceeds the capacity and even the doubled
capacity capped at `maxSize` cannot hold it, the write always succeeds without
error, and the eviction happens exactly when `size < maxSize` (not, as the
claim stated, when `size` has reached `maxSize`): then the read cursor is set
to `(writePos + len(b)) % capacity` — just past the overwritten region — and
`size` becomes the capacity.  When `size` has already reached `maxSize` the
write still succeeds but no eviction adjustment is made: the read cursor stays
where it was and the oldest bytes are silently overwritten. -/
theorem write_eviction_policy (cb : CircularBuffer) (data : List Byte)
    (hmax : (data.length : Int) ≤ cb.maxSize)
    (hover : cb.size + (data.length : Int) > cb.fileSize)
    (hcap : (if cb.fileSize * 2 > cb.maxSize then cb.maxSize else cb.fileSize * 2) <
      cb.size + (data.length : Int)) :
    (cb.size < cb.maxSize →
      (cb.Write data).isOk = true ∧
      (cb.Write data).state.readPos = (cb.writePos + (data.length : Int)) % cb.fileSize ∧
      (cb.Write data).state.size = cb.fileSize ∧
      (cb.Write data).state.fileSize = cb.fileSize) ∧
    (cb.maxSize ≤ cb.size →
      (cb.Write data).isOk = true ∧
      (cb.Write data).state.readPos = cb.readPos ∧
      (cb.Write data).state.fileSize = cb.fileSize) := by
  have hne : ¬ ((data.length : Int) > cb.maxSize) := not_lt.mpr hmax
  constructor
  · intro hlt
    unfold CircularBuffer.Write growState writeCommit
    rw [if_neg hne, if_pos hover]
    rw [if_pos ⟨hcap, hlt⟩]
    simp only [WriteResult.isOk, WriteResult.state]
    simp
  · intro hge
    unfold CircularBuffer.Write growState writeCommit
    rw [if_neg hne, if_pos hover]
    rw [if_neg (by push_neg; intro _; omega), if_neg (not_le.mpr hcap)]
    simp only [WriteResult.isOk, WriteResult.state]
    simp

/-- Witness for C2 amended: a half-full 4-byte buffer at its ceiling, written
with 3 bytes; the eviction branch fires and moves the read cursor to
`(0 + 3) % 4`. -/
theorem write_eviction_policy_witness :
    ((CircularBuffer.mk (List.replicate 4 0) 0 0 2 4 4).Write [1, 1, 1]).isOk = true ∧
    ((CircularBuffer.mk (List.replicate 4 0) 0 0 2 4 4).Write [1, 1, 1]).state.readPos =
      ((0 : Int) + ([(1 : Byte), 1, 1].length : Int)) % 4 ∧
    ((CircularBuffer.mk (List.replicate 4 0) 0 0 2 4 4).Write [1, 1, 1]).state.size = 4 ∧
    ((CircularBuffer.mk (List.replicate 4 0) 0 0 2 4 4).Write [1, 1, 1]).state.fileSize = 4 :=
  (write_eviction_policy (CircularBuffer.mk (List.replicate 4 0) 0 0 2 4 4) [1, 1, 1]
    (by decide) (by decide) (by decide)).1 (by decide)

/-- C3 amended: when `size + len(b)` exceeds the capacity but fits within the
doubled capacity capped at `maxSize`, the write succeeds, the capacity becomes
exactly that capped double, and the backing file is extended to the new
capacity.  (As the counterexample shows, the capacity does not grow when even
the capped double cannot hold the data.) -/
theorem write_growth_doubles (cb : CircularBuffer) (data : List Byte)
    (hmax : (data.length : Int) ≤ cb.maxSize)
    (hover : cb.size + (data.length : Int) > cb.fileSize)
    (hfit : cb.size + (data.length : Int) ≤
      (if cb.fileSize * 2 > cb.maxSize then cb.maxSize else cb.fileSize * 2))
    (h0s : 0 ≤ cb.size) (hwp0 : 0 ≤ cb.writePos) (hwp : cb.writePos ≤ cb.fileSize)
    (hlen : (cb.fileData.length : Int) = cb.fileSize) :
    (cb.Write data).isOk = true ∧
    (cb.Write data).state.fileSize =
      (if cb.fileSize * 2 > cb.maxSize then cb.maxSize else cb.fileSize * 2) ∧
    ((cb.Write data).state.fileData.length : Int) = (cb.Write data).state.fileSize := by
  have hne : ¬ ((data.length : Int) > cb.maxSize) := not_lt.mpr hmax
  unfold CircularBuffer.Write growState writeCommit
  rw [if_neg hne, if_pos hover]
  rw [if_neg (by push_neg; intro h; omega), if_pos (by omega)]
  refine ⟨rfl, rfl, ?_⟩
  show ((writeChunks (truncateFile cb.fileData
      (if cb.fileSize * 2 > cb.maxSize then cb.maxSize else cb.fileSize * 2)) cb.writePos
      (if cb.fileSize * 2 > cb.maxSize then cb.maxSize else cb.fileSize * 2) data).length : Int) =
    (if cb.fileSize * 2 > cb.maxSize then cb.maxSize else cb.fileSize * 2)
  rw [length_writeChunks]
  · rw [length_truncateFile]; omega
  · omega
  · omega
  · omega

/-- Witness for C3 amended: a 4-byte buffer holding 2 bytes, ceiling 100,
written with 3 bytes; the capacity doubles to 8 and the file is extended. -/
theorem write_growth_doubles_witness :
    ((CircularBuffer.mk (List.replicate 4 0) 0 0 2 4 100).Write [1, 1, 1]).isOk = true ∧
    ((CircularBuffer.mk (List.replicate 4 0) 0 0 2 4 100).Write [1, 1, 1]).state.fileSize =
      (if (4 : Int) * 2 > 100 then 100 else 4 * 2) ∧
    ((((CircularBuffer.mk (List.replicate 4 0) 0 0 2 4 100).Write
        [1, 1, 1]).state.fileData.length : Int) =
      ((CircularBuffer.mk (List.replicate 4 0) 0 0 2 4 100).Write [1, 1, 1]).state.fileSize) :=
  write_growth_doubles (CircularBuffer.mk (List.replicate 4 0) 0 0 2 4 100) [1, 1, 1]
    (by decide) (by decide) (by decide) (by decide) (by decide) (by decide) (by decide)

/-- The growth / eviction phase keeps `size` within the (possibly new) file
size, and only ever changes the file size to the doubled-capped value, which
never exceeds `maxSize`. -/
theorem growState_inv (cb : CircularBuffer) (dl : Int) (h0 : 0 ≤ cb.size)
    (h1 : cb.size ≤ cb.fileSize) :
    0 ≤ (growState cb dl).size ∧ (growState cb dl).size ≤ (growState cb dl).fileSize ∧
    ((growState cb dl).fileSize = cb.fileSize ∨ (growState cb dl).fileSize ≤ cb.maxSize) ∧
    (growState cb dl).maxSize = cb.maxSize := by
  unfold growState
  by_cases hov : cb.size + dl > cb.fileSize
  · rw [if_pos hov]
    by_cases hev : (if cb.fileSize * 2 > cb.maxSize then cb.maxSize else cb.fileSize * 2) <
        cb.size + dl ∧ cb.size < cb.maxSize
    · rw [if_pos hev]
      exact ⟨show (0 : Int) ≤ cb.fileSize by omega, le_refl _, Or.inl rfl, rfl⟩
    · rw [if_neg hev]
      by_cases hgr : (if cb.fileSize * 2 > cb.maxSize then cb.maxSize else cb.fileSize * 2) ≥
          cb.size + dl
      · rw [if_pos hgr]
        refine ⟨h0, ?_, Or.inr ?_, rfl⟩
        · show cb.size ≤ (if cb.fileSize * 2 > cb.maxSize then cb.maxSize else cb.fileSize * 2)
          omega
        · show (if cb.fileSize * 2 > cb.maxSize then cb.maxSize else cb.fileSize * 2) ≤ cb.maxSize
          split_ifs <;> omega
      · rw [if_neg hgr]
        exact ⟨h0, h1, Or.inl rfl, rfl⟩
  · rw [if_neg hov]
    exact ⟨h0, h1, Or.inl rfl, rfl⟩

/-- The commit phase of a write keeps `size` within the file size and touches
neither the file size nor `maxSize`. -/
theorem writeCommit_inv (cb : CircularBuffer) (data : List Byte) (h0 : 0 ≤ cb.size)
    (h1 : cb.size ≤ cb.fileSize) :
    0 ≤ (writeCommit cb data).size ∧ (writeCommit cb data).size ≤ cb.fileSize ∧
    (writeCommit cb data).fileSize = cb.fileSize ∧
    (writeCommit cb data).maxSize = cb.maxSize := by
  unfold writeCommit
  refine ⟨?_, ?_, rfl, rfl⟩
  · show 0 ≤ (if cb.size < cb.fileSize then min (cb.size + (data.length : Int)) cb.fileSize
      else cb.size)
    split_ifs <;> omega
  · show (if cb.size < cb.fileSize then min (cb.size + (data.length : Int)) cb.fileSize
      else cb.size) ≤ cb.fileSize
    split_ifs <;> omega

/-- A successful `Write` produces exactly the committed grown state. -/
theorem write_ok_inv {cb cb' : CircularBuffer} {data : List Byte} {n : Int}
    (h : cb.Write data = .ok cb' n) :
    cb' = writeCommit (growState cb (data.length : Int)) data := by
  unfold CircularBuffer.Write at h
  split_ifs at h
  injection h with h1 h2
  exact h1.symm

/-- A successful `Read` keeps the file size and `maxSize` and moves `size`
down within `[0, size]`. -/
theorem read_ok_inv {cb cb' : CircularBuffer} {d : List Byte} {mb : Int}
    (h : cb.Read mb = .ok d cb') :
    cb'.fileSize = cb.fileSize ∧ cb'.maxSize = cb.maxSize ∧
    0 ≤ cb'.size ∧ cb'.size ≤ cb.size := by
  unfold CircularBuffer.Read at h
  simp only [] at h
  split_ifs at h with h1 h2 h3
  all_goals split at h
  all_goals cases h
  all_goals refine ⟨rfl, rfl, ?_, ?_⟩
  all_goals simp
  all_goals omega

/-- C6 amended: every state reachable through `NewBuffer`, `Write` and `Read`
satisfies `0 ≤ size ≤ capacity`, and the capacity never exceeds the larger of
the initial capacity and `maxCapacity`.  In particular `capacity ≤ maxCapacity`
holds from construction onward whenever the initial capacity (the opened
file's size, or `InitialBufferSize` for a fresh file) is at most `maxCapacity`;
the counterexample shows it can fail at construction otherwise. -/
theorem reachable_size_capacity_invariant (existing : List Byte) (maxSize : Int)
    (cb : CircularBuffer) (h : Reachable existing maxSize cb) :
    0 ≤ cb.size ∧ cb.size ≤ cb.fileSize ∧
    cb.fileSize ≤ max (NewBuffer existing maxSize).fileSize maxSize ∧
    cb.maxSize = maxSize := by
  induction h with
  | new =>
      unfold NewBuffer
      split_ifs
      · exact ⟨le_refl _, show (0 : Int) ≤ InitialBufferSize by decide, le_max_left _ _, rfl⟩
      · refine ⟨le_refl _, ?_, le_max_left _ _, rfl⟩
        show (0 : Int) ≤ (existing.length : Int)
        positivity
  | @wstep cb0 cb0' data n hr hw ih =>
      obtain ⟨ih0, ih1, ih2, ih3⟩ := ih
      rw [write_ok_inv hw]
      obtain ⟨g0, g1, g2, g3⟩ := growState_inv cb0 (data.length : Int) ih0 ih1
      obtain ⟨c0, c1, c2, c3⟩ := writeCommit_inv (growState cb0 (data.length : Int)) data g0 g1
      refine ⟨c0, ?_, ?_, ?_⟩
      · rw [c2]; exact c1
      · rw [c2]
        rcases g2 with hsame | hle
        · rw [hsame]; exact ih2
        · exact le_trans (by rw [← ih3]; exact hle) (le_max_right _ _)
      · rw [c3, g3, ih3]
  | rstep hr hrd ih =>
      obtain ⟨ih0, ih1, ih2, ih3⟩ := ih
      obtain ⟨r1, r2, r3, r4⟩ := read_ok_inv hrd
      exact ⟨r3, by rw [r1]; exact le_trans r4 ih1, by rw [r1]; exact ih2,
        by rw [r2]; exact ih3⟩

/-- Witness for C6 amended at the constructed state itself. -/
theorem reachable_size_capacity_invariant_witness :
    0 ≤ (NewBuffer [] 1000).size ∧ (NewBuffer [] 1000).size ≤ (NewBuffer [] 1000).fileSize ∧
    (NewBuffer [] 1000).fileSize ≤ max (NewBuffer [] 1000).fileSize 1000 ∧
    (NewBuffer [] 1000).maxSize = 1000 :=
  reachable_size_capacity_invariant [] 1000 (NewBuffer [] 1000) .new

/-- C10: for every buffer state with `0 < size`, calling `Read` with a negative
`maxBytes` sets the amount to read to that negative value and reaches the
negative-length `make([]byte, toRead)` — a runtime panic; for every
`maxBytes ≥ 0` that failure is unreachable, and (under the structural bounds
every reachable state satisfies) `Read` returns exactly `min(size, maxBytes)`
bytes. -/
theorem read_negative_maxBytes (cb : CircularBuffer) (maxBytes : Int) (hs0 : 0 ≤ cb.size) :
    (0 < cb.size → maxBytes < 0 → cb.Read maxBytes = .negAlloc) ∧
    (0 ≤ maxBytes → cb.Read maxBytes ≠ .negAlloc) ∧
    (0 ≤ maxBytes → 0 < cb.size →
      0 ≤ cb.readPos → cb.readPos < cb.fileSize → cb.size ≤ cb.fileSize →
      cb.fileSize ≤ (cb.fileData.length : Int) →
      ∃ d cb', cb.Read maxBytes = .ok d cb' ∧ (d.length : Int) = min cb.size maxBytes) := by
  refine ⟨?_, ?_, ?_⟩
  · intro hpos hneg
    unfold CircularBuffer.Read
    rw [if_neg (by omega : ¬ cb.size = 0)]
    simp only []
    rw [if_pos (by omega : cb.size > maxBytes), if_pos hneg]
  · intro hmb
    unfold CircularBuffer.Read
    by_cases hz : cb.size = 0
    · rw [if_pos hz]; intro hc; cases hc
    · rw [if_neg hz]
      simp only []
      by_cases hgt : cb.size > maxBytes
      · rw [if_pos hgt, if_neg (by omega : ¬ maxBytes < 0)]
        split
        · intro hc; cases hc
        · intro hc; cases hc
      · rw [if_neg hgt, if_neg (by omega : ¬ cb.size < 0)]
        split
        · intro hc; cases hc
        · intro hc; cases hc
  · intro hmb hpos hr0 hr1 hsf hfl
    unfold CircularBuffer.Read
    rw [if_neg (by omega : ¬ cb.size = 0)]
    simp only []
    by_cases hgt : cb.size > maxBytes
    · rw [if_pos hgt, if_neg (by omega : ¬ maxBytes < 0)]
      by_cases hw : cb.readPos + maxBytes ≤ cb.fileSize
      · rw [if_pos hw]
        unfold readAt
        rw [if_pos (by omega)]
        refine ⟨_, _, rfl, ?_⟩
        simp only [List.length_take, List.length_drop]
        omega
      · rw [if_neg hw]
        unfold readAt
        rw [if_pos (by omega), if_pos (by omega)]
        refine ⟨_, _, rfl, ?_⟩
        simp only [List.length_append, List.length_take, List.length_drop]
        omega
    · rw [if_neg hgt, if_neg (by omega : ¬ cb.size < 0)]
      by_cases hw : cb.readPos + cb.size ≤ cb.fileSize
      · rw [if_pos hw]
        unfold readAt
        rw [if_pos (by omega)]
        refine ⟨_, _, rfl, ?_⟩
        simp only [List.length_take, List.length_drop]
        omega
      · rw [if_neg hw]
        unfold readAt
        rw [if_pos (by omega), if_pos (by omega)]
        refine ⟨_, _, rfl, ?_⟩
        simp only [List.length_append, List.length_take, List.length_drop]
        omega

/-- Witness for C10: a 4-byte buffer holding 2 bytes, read with `maxBytes = -1`,
hits the negative-allocation panic. -/
theorem read_negative_maxBytes_witness :
    (CircularBuffer.mk [3, 4, 5, 6] 1 1 2 4 100).Read (-1) = .negAlloc :=
  (read_negative_maxBytes (CircularBuffer.mk [3, 4, 5, 6] 1 1 2 4 100) (-1)
    (by decide)).1 (by decide) (by decide)

theorem wrap64_eq_self {x : Int} (h1 : -9223372036854775808 ≤ x)
    (h2 : x < 9223372036854775808) : wrap64 x = x := by
  unfold wrap64
  norm_num
  omega

theorem two_pow_le {k m : Nat} (h : k ≤ m) : (2 : Int) ^ k ≤ 2 ^ m :=
  pow_le_pow_right₀ (by norm_num) h

theorem calculateBackoff_eq (n qnum qden : Int) (h1 : 1 ≤ n) (h2 : n ≤ 34) :
    calculateBackoff n qnum qden =
      (min ((2 : Int) ^ (n - 1).toNat) 30 * 1000000000 * qnum).tdiv qden := by
  have hk : (n - 1).toNat ≤ 33 := by omega
  have hpow : (2 : Int) ^ (n - 1).toNat ≤ 2 ^ 33 := two_pow_le hk
  have h33 : ((2 : Int) ^ 33) = 8589934592 := by norm_num
  have hb1 : (2 : Int) ^ (n - 1).toNat ≤ 8589934592 := h33 ▸ hpow
  have hpow0 : (0 : Int) < 2 ^ (n - 1).toNat := pow_pos (by norm_num) _
  unfold calculateBackoff
  rw [if_neg (by omega : ¬ n ≤ 0)]
  simp only []
  rw [@wrap64_eq_self ((2 : Int) ^ (n - 1).toNat) (by omega) (by omega)]
  rw [@wrap64_eq_self ((2 : Int) ^ (n - 1).toNat * 1000000000) (by omega) (by omega)]
  by_cases h30 : (2 : Int) ^ (n - 1).toNat * 1000000000 > 30000000000
  · rw [if_pos h30]
    have hmin : min ((2 : Int) ^ (n - 1).toNat) 30 = 30 := by omega
    rw [hmin]
    norm_num
  · rw [if_neg h30]
    have hmin : min ((2 : Int) ^ (n - 1).toNat) 30 = 2 ^ (n - 1).toNat := by omega
    rw [hmin]

/-- C4 amended: `calculateBackoff(n)` returns 100 ms for every `n ≤ 0`; for
`1 ≤ n ≤ 34` it returns `min(30 s, 2^(n-1) s)` multiplied by the drawn jitter
factor `qnum/qden ∈ [0.8, 1.2]` (truncated toward zero), a value that is
non-negative and at most 36 s, and it is non-decreasing in `n` on `1..5` for
each fixed jitter factor (hence in expectation).  For `n ≥ 35` the `int64`
shift/multiplication overflows and the claimed formula fails — see the
counterexample at `n = 35`, where the result is a large negative duration. -/
theorem calculateBackoff_spec (n qnum qden : Int)
    (hq1 : 4 * qden ≤ 5 * qnum) (hq2 : 5 * qnum ≤ 6 * qden) (hd : 0 < qden) :
    (n ≤ 0 → calculateBackoff n qnum qden = 100000000) ∧
    (1 ≤ n → n ≤ 34 →
      calculateBackoff n qnum qden =
        (min ((2 : Int) ^ (n - 1).toNat) 30 * 1000000000 * qnum).tdiv qden ∧
      0 ≤ calculateBackoff n qnum qden ∧ calculateBackoff n qnum qden ≤ 36000000000) ∧
    (1 ≤ n → n ≤ 4 → calculateBackoff n qnum qden ≤ calculateBackoff (n + 1) qnum qden) := by
  have hqn : 0 < qnum := by omega
  refine ⟨?_, ?_, ?_⟩
  · intro h
    unfold calculateBackoff
    rw [if_pos h]
  · intro h1 h2
    rw [calculateBackoff_eq n qnum qden h1 h2]
    have hmin0 : 0 ≤ min ((2 : Int) ^ (n - 1).toNat) 30 :=
      le_min (by positivity) (by norm_num)
    have hmin30 : min ((2 : Int) ^ (n - 1).toNat) 30 ≤ 30 := min_le_right _ _
    have ha0 : 0 ≤ min ((2 : Int) ^ (n - 1).toNat) 30 * 1000000000 * qnum :=
      mul_nonneg (mul_nonneg hmin0 (by norm_num)) (le_of_lt hqn)
    have hb : min ((2 : Int) ^ (n - 1).toNat) 30 * 1000000000 * qnum ≤
        36000000000 * qden := by nlinarith
    refine ⟨rfl, Int.tdiv_nonneg ha0 (le_of_lt hd), ?_⟩
    rw [Int.tdiv_eq_ediv ha0 (le_of_lt hd)]
    exact Int.le_of_mul_le_mul_right
      (le_trans (Int.ediv_mul_le _ (by omega)) hb) hd
  · intro h1 h4
    rw [calculateBackoff_eq n qnum qden h1 (by omega),
      calculateBackoff_eq (n + 1) qnum qden (by omega) (by omega)]
    have hsucc : (n + 1 - 1).toNat = (n - 1).toNat + 1 := by omega
    rw [hsucc, pow_succ]
    have hp0 : (0 : Int) ≤ 2 ^ (n - 1).toNat := by positivity
    have hmono : min ((2 : Int) ^ (n - 1).toNat) 30 ≤ min ((2 : Int) ^ (n - 1).toNat * 2) 30 :=
      min_le_min (by omega) (le_refl _)
    have hmin0 : 0 ≤ min ((2 : Int) ^ (n - 1).toNat) 30 :=
      le_min (by positivity) (by norm_num)
    have hA0 : 0 ≤ min ((2 : Int) ^ (n - 1).toNat) 30 * 1000000000 * qnum :=
      mul_nonneg (mul_nonneg hmin0 (by norm_num)) (le_of_lt hqn)
    have hB0 : 0 ≤ min ((2 : Int) ^ (n - 1).toNat * 2) 30 * 1000000000 * qnum :=
      mul_nonneg (mul_nonneg (le_trans hmin0 hmono) (by norm_num)) (le_of_lt hqn)
    have hAB : min ((2 : Int) ^ (n - 1).toNat) 30 * 1000000000 * qnum ≤
        min ((2 : Int) ^ (n - 1).toNat * 2) 30 * 1000000000 * qnum := by
      apply mul_le_mul_of_nonneg_right _ (le_of_lt hqn)
      apply mul_le_mul_of_nonneg_right hmono (by norm_num)
    rw [Int.tdiv_eq_ediv hA0 (le_of_lt hd), Int.tdiv_eq_ediv hB0 (le_of_lt hd)]
    exact Int.ediv_le_ediv hd hAB

/-- Witness for C4 amended at `n = 0, 6, 2` with jitter factor 1. -/
theorem calculateBackoff_spec_witness :
    calculateBackoff 0 1 1 = 100000000 ∧
    0 ≤ calculateBackoff 6 1 1 ∧ calculateBackoff 6 1 1 ≤ 36000000000 ∧
    calculateBackoff 2 1 1 ≤ calculateBackoff 3 1 1 :=
  ⟨(calculateBackoff_spec 0 1 1 (by decide) (by decide) (by decide)).1 (by decide),
   ((calculateBackoff_spec 6 1 1 (by decide) (by decide) (by decide)).2.1
     (by decide) (by decide)).2.1,
   ((calculateBackoff_spec 6 1 1 (by decide) (by decide) (by decide)).2.1
     (by decide) (by decide)).2.2,
   (calculateBackoff_spec 2 1 1 (by decide) (by decide) (by decide)).2.2
     (by decide) (by decide)⟩

/-- C7: in batched mode (batching enabled and at least `batchSize` queued
entries), if any entry among the first `batchSize` entries of the retry queue
is still within its backoff window, the iteration transmits nothing (no request
is attempted) and leaves the queue, and both counters, unchanged. -/
theorem batch_backoff_blocks (batchSize maxRetries : Nat) (queue : List QueuedMessage)
    (now : Int) (qs : Nat → Int × Int) (sendOk : Bool)
    (hlen : batchSize ≤ queue.length)
    (hback : anyOnBackoff now qs (queue.take batchSize) = true) :
    deliveryStep true batchSize maxRetries queue now qs sendOk = ⟨queue, none, 0, 0⟩ := by
  cases queue with
  | nil =>
      simp at hlen
      subst hlen
      simp [anyOnBackoff] at hback
  | cons msg rest =>
      simp only [deliveryStep]
      rw [if_pos (show True ∧ batchSize ≤ (msg :: rest).length from ⟨trivial, hlen⟩)]
      rw [if_neg (show ¬ batchSize > (msg :: rest).length by omega)]
      rw [if_pos hback]

/-- C9 amended: with batching enabled and no relevant entry on backoff, an
iteration that transmits from a queue of at least `batchSize` entries sends
exactly `batchSize = min(batchSize, queue length)` entries in one batch; but
when `0 < queue length < batchSize` the iteration falls back to single-message
mode and transmits exactly one entry, not `min(batchSize, queue length)`. -/
theorem batch_count_sent (batchSize maxRetries : Nat) (queue : List QueuedMessage)
    (now : Int) (qs : Nat → Int × Int) (sendOk : Bool) :
    (batchSize ≤ queue.length →
      anyOnBackoff now qs (queue.take batchSize) = false →
      sentLength (deliveryStep true batchSize maxRetries queue now qs sendOk) =
        min batchSize queue.length) ∧
    (0 < queue.length → queue.length < batchSize →
      onBackoff now (qs 0) (queue.getD 0 ⟨"", 0, none⟩) = false →
      sentLength (deliveryStep true batchSize maxRetries queue now qs sendOk) = 1) := by
  constructor
  · intro hlen hready
    cases queue with
    | nil =>
        simp at hlen
        subst hlen
        simp [deliveryStep, sentLength]
    | cons msg rest =>
        simp only [deliveryStep]
        rw [if_pos (show True ∧ batchSize ≤ (msg :: rest).length from ⟨trivial, hlen⟩)]
        rw [if_neg (show ¬ batchSize > (msg :: rest).length by omega)]
        rw [if_neg (show ¬ anyOnBackoff now qs (List.take batchSize (msg :: rest)) = true
          by simp [hready])]
        by_cases hs : sendOk = true
        · rw [if_pos hs]
          simp only [sentLength, List.length_take]
        · rw [if_neg hs]
          simp only [sentLength, List.length_take]
  · intro hpos hshort hhead
    cases queue with
    | nil => simp at hpos
    | cons msg rest =>
        simp only [deliveryStep]
        rw [if_neg (show ¬ (True ∧ batchSize ≤ (msg :: rest).length) from
          fun hc => absurd hc.2 (by omega))]
        have hmsg : onBackoff now (qs 0) msg = false := by simpa using hhead
        rw [if_neg (show ¬ onBackoff now (qs 0) msg = true by simp [hmsg])]
        by_cases hs : sendOk = true
        · rw [if_pos hs]
          simp [sentLength]
        · rw [if_neg hs]
          by_cases hr : maxRetries < msg.retries + 1
          · rw [if_pos hr]
            simp [sentLength]
          · rw [if_neg hr]
            simp [sentLength]

/-- Witness for C7: a two-entry batch whose first entry attempted 50 ns ago
with one retry (backoff 1 s) blocks the whole batch. -/
theorem batch_backoff_blocks_witness :
    deliveryStep true 2 3 [⟨"a", 1, some 0⟩, ⟨"b", 0, none⟩] 50 (fun _ => (1, 1)) true =
      ⟨[⟨"a", 1, some 0⟩, ⟨"b", 0, none⟩], none, 0, 0⟩ :=
  batch_backoff_blocks 2 3 [⟨"a", 1, some 0⟩, ⟨"b", 0, none⟩] 50 (fun _ => (1, 1)) true
    (by decide) (by decide)

/-- Witness for C9 amended: two fresh entries with `batchSize = 2` go out as a
batch of `min 2 2 = 2`. -/
theorem batch_count_sent_witness :
    sentLength (deliveryStep true 2 3 [⟨"a", 0, none⟩, ⟨"b", 0, none⟩] 0
      (fun _ => (1, 1)) true) = min 2 ([(⟨"a", 0, none⟩ : QueuedMessage), ⟨"b", 0, none⟩].length) :=
  (batch_count_sent 2 3 [⟨"a", 0, none⟩, ⟨"b", 0, none⟩] 0 (fun _ => (1, 1)) true).1
    (by decide) (by decide)

/-- Every entry a delivery iteration leaves in the queue, and every entry it
puts into a transmission attempt, carries a message already present in the
incoming queue — an entry removed from the queue can never be transmitted by a
later iteration. -/
theorem step_messages_from_queue (eb : Bool) (batchSize maxRetries : Nat)
    (queue : List QueuedMessage) (now : Int) (qs : Nat → Int × Int) (sendOk : Bool)
    (out : StepOut) (heq : deliveryStep eb batchSize maxRetries queue now qs sendOk = out) :
    (∀ m' ∈ out.queue, m'.message ∈ queue.map QueuedMessage.message) ∧
    (∀ l, out.sent = some l → ∀ m' ∈ l, m'.message ∈ queue.map QueuedMessage.message) := by
  obtain ⟨q', s', f', n'⟩ := out
  cases queue with
  | nil =>
      simp only [deliveryStep] at heq
      injection heq with h1 h2 h3 h4
      subst h1
      subst h2
      simp
  | cons msg rest =>
      simp only [deliveryStep] at heq
      split_ifs at heq with hg hb hs hb2 hs2 hr
      all_goals injection heq with h1 h2 h3 h4
      all_goals subst h1
      all_goals subst h2
      all_goals refine ⟨fun m' hm' => ?_, fun l hl m' hm' => ?_⟩
      all_goals try (injection hl with hl)
      all_goals try (subst hl)
      all_goals first
      | exact List.mem_map_of_mem _ hm'
      | exact List.mem_map_of_mem _ (List.mem_of_mem_take hm')
      | exact List.mem_map_of_mem _ (List.mem_of_mem_drop hm')
      | exact List.mem_map_of_mem _ (List.mem_cons_of_mem _ hm')
      | (simp only [List.mem_singleton] at hm'
         rw [hm']
         exact List.mem_map_of_mem _ (List.mem_cons_self _ _))
      | (rcases List.mem_cons.mp hm' with hc | hc
         · subst hc
           exact List.mem_map.mpr ⟨msg, List.mem_cons_self _ _, rfl⟩
         · exact List.mem_map_of_mem _ (List.mem_cons_of_mem _ hc))
      | (rcases List.mem_append.mp (List.mem_filter.mp hm').1 with hmm | hmm
         · rcases List.mem_map.mp hmm with ⟨m0, hm0, hfm⟩
           have hmsg : m'.message = m0.message := by
             by_cases hc : maxRetries < m0.retries + 1 <;> simp [hc] at hfm <;> rw [← hfm]
           rw [hmsg]
           exact List.mem_map_of_mem _ (List.mem_of_mem_take hm0)
         · exact List.mem_map_of_mem _ (List.mem_of_mem_drop hmm))
      | simp at hl

/-- C8: on a failed transmission, in batched mode every entry of the attempted
batch gets its retry count incremented and its `lastAttempt` stamped; entries
whose new count exceeds `maxRetries` are removed from the queue and each
counted as a permanent failure, while entries at or below `maxRetries` remain
queued (the rest of the queue untouched).  In single mode the same policy
applies to the head entry.  Messages absent from the queue are never contained
in any later queue or transmission, so a dropped entry is never transmitted
again. -/
theorem retry_exhaustion (batchSize maxRetries : Nat) (queue : List QueuedMessage)
    (now : Int) (qs : Nat → Int × Int) :
    (0 < queue.length → batchSize ≤ queue.length →
      anyOnBackoff now qs (queue.take batchSize) = false →
      (∀ m ∈ queue, m.retries ≤ maxRetries) →
      deliveryStep true batchSize maxRetries queue now qs false =
        ⟨((queue.take batchSize).filter fun m => m.retries + 1 ≤ maxRetries).map
            (fun m => { m with retries := m.retries + 1, lastAttempt := some now }) ++
          queue.drop batchSize,
         some (queue.take batchSize),
         (queue.take batchSize).countP fun m => maxRetries < m.retries + 1,
         0⟩) ∧
    (∀ msg rest, queue = msg :: rest →
      onBackoff now (qs 0) msg = false →
      (maxRetries < msg.retries + 1 →
        deliveryStep false batchSize maxRetries queue now qs false =
          ⟨rest, some [msg], 1, 0⟩) ∧
      (msg.retries + 1 ≤ maxRetries →
        deliveryStep false batchSize maxRetries queue now qs false =
          ⟨{ msg with retries := msg.retries + 1, lastAttempt := some now } :: rest,
           some [msg], 0, 0⟩)) ∧
    (∀ (eb sendOk : Bool) (out : StepOut),
      deliveryStep eb batchSize maxRetries queue now qs sendOk = out →
      (∀ m' ∈ out.queue, m'.message ∈ queue.map QueuedMessage.message) ∧
      (∀ l, out.sent = some l →
        ∀ m' ∈ l, m'.message ∈ queue.map QueuedMessage.message)) := by
  refine ⟨?_, ?_, ?_⟩
  · intro hpos hlen hready hinv
    cases queue with
    | nil => simp at hpos
    | cons msg rest =>
        simp only [deliveryStep]
        rw [if_pos (show True ∧ batchSize ≤ (msg :: rest).length from ⟨trivial, hlen⟩)]
        rw [if_neg (show ¬ batchSize > (msg :: rest).length by omega)]
        rw [if_neg (show ¬ anyOnBackoff now qs (List.take batchSize (msg :: rest)) = true
          by simp [hready])]
        rw [if_neg (show ¬ (false = true) by simp)]
        simp only [StepOut.mk.injEq]
        refine ⟨?_, trivial, trivial, trivial⟩
        rw [List.filter_append]
        have hdropfix : ((msg :: rest).drop batchSize).filter
            (fun m => decide (m.retries ≤ maxRetries)) = (msg :: rest).drop batchSize :=
          List.filter_eq_self.mpr fun m hm => by
            simp [hinv m (List.mem_of_mem_drop hm)]
        rw [hdropfix, List.filter_map]
        have hpred : ((fun m => decide (m.retries ≤ maxRetries)) ∘
            (fun m : QueuedMessage =>
              if maxRetries < m.retries + 1 then
                { m with retries := maxRetries + 1, lastAttempt := some now }
              else { m with retries := m.retries + 1, lastAttempt := some now })) =
            fun m => decide (m.retries + 1 ≤ maxRetries) := by
          funext m
          by_cases h : maxRetries < m.retries + 1 <;> simp [h]
        rw [hpred]
        congr 1
        apply List.map_congr_left
        intro m hm
        have hmr : m.retries + 1 ≤ maxRetries := by
          have := List.mem_filter.mp hm
          simpa using this.2
        rw [if_neg (by omega)]
  · intro msg rest hq hback
    subst hq
    simp only [deliveryStep]
    rw [if_neg (by simp)]
    rw [if_neg (by simp [hback])]
    rw [if_neg (show ¬ (false = true) by simp)]
    constructor
    · intro hr
      rw [if_pos hr]
    · intro hr
      rw [if_neg (by omega)]
  · intro eb sendOk out heq
    exact step_messages_from_queue eb batchSize maxRetries queue now qs sendOk out heq

/-- Witness for C8: `maxRetries = 1`, a batch of two where the first entry is
on its second failure — it is dropped and counted, the fresh entry stays. -/
theorem retry_exhaustion_witness :
    deliveryStep true 2 1 [⟨"a", 1, some 0⟩, ⟨"b", 0, none⟩] 2000000000
      (fun _ => (1, 1)) false =
    ⟨[⟨"b", 1, some 2000000000⟩], some [⟨"a", 1, some 0⟩, ⟨"b", 0, none⟩], 1, 0⟩ :=
  ((retry_exhaustion 2 1 [⟨"a", 1, some 0⟩, ⟨"b", 0, none⟩] 2000000000
    (fun _ => (1, 1))).1 (by decide) (by decide) (by decide) (by decide)).trans (by decide)

theorem writeAt_read_nowrap (file data : List Byte) (p : Nat)
    (hpd : p + data.length ≤ file.length) :
    ((writeAt file p data).drop p).take data.length = data := by
  unfold writeAt
  rw [Nat.sub_eq_zero_of_le (by omega : p ≤ file.length)]
  simp only [List.replicate_zero, List.nil_append, List.append_assoc]
  rw [List.drop_left' (by simp; omega : (file.take p).length = p)]
  exact List.take_left' rfl

theorem writeAt_nowrap_length (file data : List Byte) (p : Nat)
    (hpd : p + data.length ≤ file.length) :
    (writeAt file p data).length = file.length := by
  rw [length_writeAt]
  omega

theorem writeAt_zero (file data : List Byte) :
    writeAt file 0 data = data ++ file.drop data.length := by
  unfold writeAt
  simp

theorem writeAt_tail (file data : List Byte) (p : Nat) (hp : p ≤ file.length)
    (hfill : p + data.length = file.length) :
    writeAt file p data = file.take p ++ data := by
  unfold writeAt
  rw [Nat.sub_eq_zero_of_le hp]
  simp only [List.replicate_zero, List.nil_append]
  rw [List.drop_eq_nil_of_le (by omega)]
  simp

theorem writeAt_read_wrap (file data : List Byte) (p : Nat)
    (hp : p < file.length) (hdl : data.length < file.length)
    (hwrap : file.length < p + data.length) :
    (writeAt (writeAt file p (data.take (file.length - p))) 0
        (data.drop (file.length - p))).length = file.length ∧
    ((writeAt (writeAt file p (data.take (file.length - p))) 0
        (data.drop (file.length - p))).drop p).take (file.length - p) =
      data.take (file.length - p) ∧
    (writeAt (writeAt file p (data.take (file.length - p))) 0
        (data.drop (file.length - p))).take (data.length - (file.length - p)) =
      data.drop (file.length - p) := by
  have ht1len : (data.take (file.length - p)).length = file.length - p := by
    simp
    omega
  have ht2len : (data.drop (file.length - p)).length = data.length - (file.length - p) := by
    simp
  have hfile1 : writeAt file p (data.take (file.length - p)) =
      file.take p ++ data.take (file.length - p) :=
    writeAt_tail _ _ _ (by omega) (by omega)
  rw [hfile1, writeAt_zero, ht2len]
  refine ⟨?_, ?_, ?_⟩
  · simp
    omega
  · rw [List.drop_append_eq_append_drop]
    rw [List.drop_eq_nil_of_le (by omega : (data.drop (file.length - p)).length ≤ p)]
    rw [List.nil_append, ht2len, List.drop_drop]
    rw [show data.length - (file.length - p) + (p - (data.length - (file.length - p))) = p
      by omega]
    rw [List.drop_left' (show (file.take p).length = p by simp; omega)]
    exact List.take_of_length_le (by omega)
  · rw [List.take_left' ht2len]

/-- C1 amended: from an empty buffer with both cursors at any position `p`,
for every non-empty byte sequence shorter than the capacity and no longer than
`maxSize`, `Write` succeeds and a following `Read` of its length returns
exactly the written bytes, in order — including when the write and read span
the end of the backing file and are split into a tail chunk and a head chunk
from offset 0.  (The `len(b) ≤ maxSize` hypothesis is forced by the
counterexample: `Write` rejects data longer than `maxSize` even when it is
shorter than the capacity.) -/
theorem write_then_read_roundtrip (p : Nat) (maxS : Int) (file data : List Byte)
    (hp : p < file.length) (hlen : data.length < file.length)
    (hmax : (data.length : Int) ≤ maxS) (hne : data ≠ []) :
    ∃ cb' cb'',
      (CircularBuffer.mk file (p : Int) (p : Int) 0 (file.length : Int) maxS).Write data =
        .ok cb' (data.length : Int) ∧
      cb'.Read (data.length : Int) = .ok data cb'' := by
  have hdl0 : 0 < data.length := List.length_pos.mpr hne
  have hW : (CircularBuffer.mk file (p : Int) (p : Int) 0 (file.length : Int) maxS).Write data =
      .ok (CircularBuffer.mk (writeChunks file (p : Int) (file.length : Int) data) (p : Int)
        (((p : Int) + (data.length : Int)) % (file.length : Int)) (data.length : Int)
        (file.length : Int) maxS) (data.length : Int) := by
    unfold CircularBuffer.Write growState writeCommit
    rw [if_neg (not_lt.mpr hmax)]
    rw [if_neg (show ¬ ((0 : Int) + (data.length : Int) > (file.length : Int)) by omega)]
    simp only [WriteResult.ok.injEq, CircularBuffer.mk.injEq, and_true, true_and]
    rw [if_pos (show (0 : Int) < (file.length : Int) by omega)]
    omega
  refine ⟨_, CircularBuffer.mk (writeChunks file (p : Int) (file.length : Int) data)
    (((p : Int) + (data.length : Int)) % (file.length : Int))
    (((p : Int) + (data.length : Int)) % (file.length : Int))
    ((data.length : Int) - (data.length : Int)) (file.length : Int) maxS, hW, ?_⟩
  · simp only [CircularBuffer.Read]
    rw [if_neg (show ¬ (data.length : Int) = 0 by omega)]
    rw [if_neg (lt_irrefl _)]
    rw [if_neg (show ¬ (data.length : Int) < 0 by omega)]
    by_cases hw2 : (p : Int) + (data.length : Int) ≤ (file.length : Int)
    · rw [if_pos hw2]
      have hchunks : writeChunks file (p : Int) (file.length : Int) data = writeAt file p data := by
        unfold writeChunks
        rw [if_pos hw2]
        simp
      rw [hchunks]
      unfold readAt
      have hflen : (writeAt file p data).length = file.length :=
        writeAt_nowrap_length file data p (by omega)
      rw [if_pos (by simp [hflen]; omega)]
      simp only [Int.toNat_natCast]
      rw [writeAt_read_nowrap file data p (by omega)]
    · rw [if_neg hw2]
      have hchunks : writeChunks file (p : Int) (file.length : Int) data =
          writeAt (writeAt file p (data.take (file.length - p))) 0
            (data.drop (file.length - p)) := by
        unfold writeChunks
        rw [if_neg hw2]
        simp only [Int.toNat_natCast]
        rw [show ((file.length : Int) - (p : Int)).toNat = file.length - p by omega]
      obtain ⟨hL, hA, hB⟩ := writeAt_read_wrap file data p hp hlen (by omega)
      rw [hchunks]
      unfold readAt
      rw [if_pos (by
        simp only [Int.toNat_natCast, hL]
        omega)]
      rw [if_pos (by
        simp only [Int.toNat_natCast, hL]
        omega)]
      simp only [Int.toNat_natCast]
      rw [show ((file.length : Int) - (p : Int)).toNat = file.length - p by omega]
      rw [show ((data.length : Int) - ((file.length : Int) - (p : Int))).toNat =
        data.length - (file.length - p) by omega]
      simp only [List.drop_zero]
      rw [hA, hB, List.take_append_drop]

/-- Witness for C1 amended: a wrapping write of 3 bytes at position 2 of a
4-byte buffer, read back intact across the wrap boundary. -/
theorem write_then_read_roundtrip_witness :
    ∃ cb' cb'',
      (CircularBuffer.mk (List.replicate 4 0) ((2 : Nat) : Int) ((2 : Nat) : Int) 0
          ((List.replicate 4 (0 : Byte)).length : Int) 10).Write [7, 8, 9] =
        .ok cb' (([(7 : Byte), 8, 9].length : Int)) ∧
      cb'.Read (([(7 : Byte), 8, 9].length : Int)) = .ok [7, 8, 9] cb'' :=
  write_then_read_roundtrip 2 10 (List.replicate 4 0) [7, 8, 9]
    (by decide) (by decide) (by decide) (by decide)
